import Mathlib

/-!
Verification development for the BlueQubit Quantum Job Tracker backend
(`app.py`).  The job-simulation engine is embedded shallowly: the mutable
`BlueQubitJobSimulator` object becomes an explicit `Engine` state, the
global pseudo-random stream consumed by `update_jobs` becomes an explicit
function `Nat → ℚ` of draw indices, and the values sampled inside
`create_job` (`random.choice`, `random.randint`, `random.uniform`, and the
`now_iso` timestamp) become an explicit `JobDraw` input.  Python floats are
idealised as rationals.  Python's `None`-returning lookups are modelled with
`Option`.
-/

/-- Job status strings used by `app.py`: QUEUED, RUNNING, COMPLETED, FAILED. -/
inductive JobStatus where
  | QUEUED
  | RUNNING
  | COMPLETED
  | FAILED
deriving DecidableEq, Repr

/-- One job record, mirroring the dict built in `create_job`. -/
structure Job where
  id : String
  type : String
  status : JobStatus
  created_at : String
  estimated_runtime : Nat
  success_probability : ℚ
  manual : Bool
deriving DecidableEq, Repr

/-- The values sampled by `create_job` from the PRNG and the clock:
`random.choice` of the algorithm name, the `now_iso()` timestamp,
`random.randint(30, 300)`, and `random.uniform(85.0, 99.5)`. -/
structure JobDraw where
  type : String
  created_at : String
  estimated_runtime : Nat
  success_probability : ℚ
deriving DecidableEq, Repr

/-- The mutable state of `BlueQubitJobSimulator`. -/
structure Engine where
  jobs : List Job
  job_counter : Nat
  running : Bool
  max_jobs : Nat
deriving DecidableEq, Repr

/-- The constructor `BlueQubitJobSimulator.__init__(max_jobs=200)`. -/
def Engine.init (max_jobs : Nat := 200) : Engine :=
  { jobs := [], job_counter := 1, running := true, max_jobs := max_jobs }

/-- The f-string `BQJ-{n}` used for job ids. -/
def encodeId (n : Nat) : String := "BQJ-" ++ toString n

/-- The method `create_job`: builds the job dict with the current counter,
status QUEUED and the sampled values, increments the counter, appends the
job, and pops index 0 when the list exceeds `max_jobs`. -/
def create_job (e : Engine) (d : JobDraw) (manual : Bool := false) :
    Job × Engine :=
  let job : Job :=
    { id := encodeId e.job_counter
      type := d.type
      status := .QUEUED
      created_at := d.created_at
      estimated_runtime := d.estimated_runtime
      success_probability := d.success_probability
      manual := manual }
  let jobs1 := e.jobs ++ [job]
  let jobs2 := if jobs1.length > e.max_jobs then jobs1.drop 1 else jobs1
  (job, { e with jobs := jobs2, job_counter := e.job_counter + 1 })

/-- One iteration of the `for job in self.jobs` loop body of `update_jobs`,
threading the PRNG stream `r` by its next draw index `k`.  A QUEUED job
consumes one draw and starts RUNNING when it is below 0.4; a RUNNING job
consumes one draw, and when it is below 0.3 consumes a second draw that
picks COMPLETED below `success_probability / 100` and FAILED otherwise;
terminal jobs consume no draw and are untouched. -/
def step_job (r : Nat → ℚ) (k : Nat) (job : Job) : Job × Nat :=
  match job.status with
  | .QUEUED =>
      if r k < 4 / 10 then ({ job with status := .RUNNING }, k + 1)
      else (job, k + 1)
  | .RUNNING =>
      if r k < 3 / 10 then
        ({ job with
            status :=
              if r (k + 1) < job.success_probability / 100 then .COMPLETED
              else .FAILED },
          k + 2)
      else (job, k + 1)
  | _ => (job, k)

/-- The method `update_jobs`: advances every job in place, consuming the
PRNG stream left to right.  Returns the updated list and the next unused
draw index. -/
def update_jobs (r : Nat → ℚ) : Nat → List Job → List Job × Nat
  | k, [] => ([], k)
  | k, j :: js =>
    let p := step_job r k j
    let q := update_jobs r p.2 js
    (p.1 :: q.1, q.2)

/-- Lexicographic comparison of char lists by code point, as Python compares
strings. -/
def charListLE : List Char → List Char → Bool
  | [], _ => true
  | _ :: _, [] => false
  | a :: as, b :: bs =>
    a.toNat < b.toNat || (a.toNat == b.toNat && charListLE as bs)

/-- Python string comparison `s1 <= s2` (code-point lexicographic). -/
def strLE (a b : String) : Bool := charListLE a.data b.data

/-- The dict `status_order` of `get_jobs`. -/
def status_order : JobStatus → Nat
  | .RUNNING => 0
  | .QUEUED => 1
  | .FAILED => 2
  | .COMPLETED => 3

/-- The sort key comparison of `get_jobs`: the key tuple
`(status_order[j.status], j.created_at)` compared lexicographically, as
Python's `sorted` compares key tuples. -/
def jobLE (a b : Job) : Bool :=
  decide (status_order a.status < status_order b.status) ||
    (decide (status_order a.status = status_order b.status) &&
      strLE a.created_at b.created_at)

/-- Python list slice `l[start:]` for an arbitrary integer start index:
a negative start counts from the end (clamped at 0), a non-negative start
drops that many elements. -/
def pySliceFrom (l : List α) (start : Int) : List α :=
  if start < 0 then l.drop (l.length - (-start).toNat) else l.drop start.toNat

/-- The stable ascending sort `sorted(self.jobs, key=...)` of `get_jobs`. -/
def sortedJobs (e : Engine) : List Job := e.jobs.mergeSort jobLE

/-- The method `get_jobs`: sorts by the status-priority key and returns the
Python slice `sorted_jobs[-limit:]`. -/
def get_jobs (e : Engine) (limit : Int := 50) : List Job :=
  pySliceFrom (sortedJobs e) (-limit)

/-- The method `clear_completed`: counts the COMPLETED jobs, keeps exactly
the non-COMPLETED ones, and returns the count. -/
def clear_completed (e : Engine) : Nat × Engine :=
  ((e.jobs.filter (fun j => j.status == .COMPLETED)).length,
    { e with jobs := e.jobs.filter (fun j => !(j.status == .COMPLETED)) })

/-- The method `get_job`: linear search for the first job with the given
id; `none` models the empty dict returned when nothing matches. -/
def get_job (e : Engine) (job_id : String) : Option Job :=
  e.jobs.find? (fun j => j.id == job_id)

/-- Python `a or b` on an optional string: `None` and the empty string are
falsy and fall through to `b`. -/
def pyOr (a : Option String) (b : String) : String :=
  match a with
  | none => b
  | some s => if s = "" then b else s

/-- The function `get_display_tz`: the app-config value, else the
environment value, else the literal UTC, with Python falsiness. -/
def get_display_tz (config env : Option String) : String :=
  pyOr config (pyOr env "UTC")

/-- The function `now_iso`, with the `ZoneInfo` constructor abstracted by a
validity oracle `valid` and the formatted clock `datetime.now(tz).isoformat()`
abstracted by `clock`: the `try`/`except` keeps the configured zone name
when it is valid and otherwise falls back to UTC. -/
def now_iso (valid : String → Bool) (clock : String → String)
    (config env : Option String) : String :=
  let tz_name := get_display_tz config env
  let tz := if valid tz_name then tz_name else "UTC"
  clock tz

/-- The JSON payload of the `/api/jobs` route. -/
structure JobsResponse where
  jobs : List Job
  success : Bool
deriving DecidableEq, Repr

/-- The route handler `get_jobs_api`: reads the integer `limit` query
parameter (default 50) and passes it to `get_jobs` unchanged. -/
def get_jobs_api (e : Engine) (limitParam : Option Int) : JobsResponse :=
  { jobs := get_jobs e (limitParam.getD 50), success := true }

/-- One engine operation, as invoked by the HTTP handlers and the
simulation loop.  `advance` carries the PRNG stream consumed by
`update_jobs`; `create` carries the sampled `JobDraw`.  `list` and `get`
carry their arguments although the corresponding methods never write the
state. -/
inductive EngineOp where
  | create (d : JobDraw) (manual : Bool)
  | advance (r : Nat → ℚ)
  | list (limit : Int)
  | get (job_id : String)
  | clear

/-- State effect of one engine operation.  `get_jobs` and `get_job` build
fresh lists and never assign to the simulator fields, so their state effect
is the identity. -/
def applyOp (op : EngineOp) (e : Engine) : Engine :=
  match op with
  | .create d m => (create_job e d m).2
  | .advance r => { e with jobs := (update_jobs r 0 e.jobs).1 }
  | .list _ => e
  | .get _ => e
  | .clear => (clear_completed e).2

/-- Running a sequence of engine operations. -/
def runOps (ops : List EngineOp) (e : Engine) : Engine :=
  ops.foldl (fun s op => applyOp op s) e

/-! ### Order facts about the sort comparison -/

theorem charListLE_total : ∀ xs ys : List Char,
    (charListLE xs ys || charListLE ys xs) = true := by
  intro xs
  induction xs with
  | nil => intro ys; cases ys <;> simp [charListLE]
  | cons a as ih =>
    intro ys
    cases ys with
    | nil => simp [charListLE]
    | cons b bs =>
      simp only [charListLE, Bool.or_eq_true, Bool.and_eq_true,
        decide_eq_true_eq, beq_iff_eq]
      rcases Nat.lt_trichotomy a.toNat b.toNat with h | h | h
      · exact Or.inl (Or.inl h)
      · rcases Bool.or_eq_true .. ▸ ih bs with hc | hc
        · exact Or.inl (Or.inr ⟨h, hc⟩)
        · exact Or.inr (Or.inr ⟨h.symm, hc⟩)
      · exact Or.inr (Or.inl h)

theorem charListLE_trans : ∀ xs ys zs : List Char,
    charListLE xs ys = true → charListLE ys zs = true →
      charListLE xs zs = true := by
  intro xs
  induction xs with
  | nil => intro ys zs _ _; cases zs <;> cases ys <;> simp_all [charListLE]
  | cons a as ih =>
    intro ys zs h1 h2
    cases ys with
    | nil => simp [charListLE] at h1
    | cons b bs =>
      cases zs with
      | nil => simp [charListLE] at h2
      | cons c cs =>
        simp only [charListLE, Bool.or_eq_true, Bool.and_eq_true,
          decide_eq_true_eq, beq_iff_eq] at h1 h2 ⊢
        rcases h1 with h1 | ⟨h1e, h1r⟩
        · rcases h2 with h2 | ⟨h2e, _⟩
          · exact Or.inl (h1.trans h2)
          · exact Or.inl (h2e ▸ h1)
        · rcases h2 with h2 | ⟨h2e, h2r⟩
          · exact Or.inl (h1e ▸ h2)
          · exact Or.inr ⟨h1e.trans h2e, ih bs cs h1r h2r⟩

theorem jobLE_total : ∀ a b : Job, (jobLE a b || jobLE b a) = true := by
  intro a b
  simp only [jobLE, Bool.or_eq_true, Bool.and_eq_true, decide_eq_true_eq]
  rcases Nat.lt_trichotomy (status_order a.status) (status_order b.status)
    with h | h | h
  · exact Or.inl (Or.inl h)
  · rcases Bool.or_eq_true .. ▸ charListLE_total a.created_at.data
      b.created_at.data with hc | hc
    · exact Or.inl (Or.inr ⟨h, hc⟩)
    · exact Or.inr (Or.inr ⟨h.symm, hc⟩)
  · exact Or.inr (Or.inl h)

theorem jobLE_trans : ∀ a b c : Job, jobLE a b = true → jobLE b c = true →
    jobLE a c = true := by
  intro a b c h1 h2
  simp only [jobLE, Bool.or_eq_true, Bool.and_eq_true, decide_eq_true_eq]
    at h1 h2 ⊢
  rcases h1 with h1 | ⟨h1e, h1s⟩
  · rcases h2 with h2 | ⟨h2e, _⟩
    · exact Or.inl (h1.trans h2)
    · exact Or.inl (h2e ▸ h1)
  · rcases h2 with h2 | ⟨h2e, h2s⟩
    · exact Or.inl (h1e ▸ h2)
    · exact Or.inr ⟨h1e.trans h2e,
        charListLE_trans a.created_at.data b.created_at.data
          c.created_at.data h1s h2s⟩

/-! ### The per-job transition relation of `update_jobs` -/

/-- All fields other than `status` agree. -/
def sameCore (a b : Job) : Prop :=
  a.id = b.id ∧ a.type = b.type ∧ a.created_at = b.created_at ∧
    a.estimated_runtime = b.estimated_runtime ∧
    a.success_probability = b.success_probability ∧ a.manual = b.manual

theorem sameCore_refl (a : Job) : sameCore a a :=
  ⟨rfl, rfl, rfl, rfl, rfl, rfl⟩

/-- COMPLETED and FAILED are the terminal statuses. -/
def isTerminal (s : JobStatus) : Bool := s == .COMPLETED || s == .FAILED

/-- The one-directional status chain: stay put, start running from QUEUED,
or reach a terminal state from RUNNING. -/
def statusStep (s t : JobStatus) : Prop :=
  t = s ∨ (s = .QUEUED ∧ t = .RUNNING) ∨
    (s = .RUNNING ∧ (t = .COMPLETED ∨ t = .FAILED))

theorem statusStep_refl (s : JobStatus) : statusStep s s := Or.inl rfl

/-- The relation `update_jobs` realises between an input job and its
updated version. -/
def advanceRel (j j2 : Job) : Prop :=
  sameCore j j2 ∧ statusStep j.status j2.status ∧
    (isTerminal j.status = true → j2 = j)

theorem step_job_rel (r : Nat → ℚ) (k : Nat) (j : Job) :
    advanceRel j (step_job r k j).1 := by
  obtain ⟨i, t, s, c, e, p, m⟩ := j
  cases s with
  | QUEUED =>
    by_cases h : r k < 4 / 10 <;>
      simp [step_job, advanceRel, sameCore, statusStep, isTerminal, h]
  | RUNNING =>
    by_cases h : r k < 3 / 10
    · by_cases h2 : r (k + 1) < p / 100 <;>
        simp [step_job, advanceRel, sameCore, statusStep, isTerminal, h, h2]
    · simp [step_job, advanceRel, sameCore, statusStep, isTerminal, h]
  | COMPLETED => simp [step_job, advanceRel, sameCore, statusStep, isTerminal]
  | FAILED => simp [step_job, advanceRel, sameCore, statusStep, isTerminal]

theorem update_jobs_rel (r : Nat → ℚ) :
    ∀ (k : Nat) (jobs : List Job),
      List.Forall₂ advanceRel jobs (update_jobs r k jobs).1 := by
  intro k jobs
  induction jobs generalizing k with
  | nil => exact List.Forall₂.nil
  | cons j js ih =>
    exact List.Forall₂.cons (step_job_rel r k j) (ih _)

theorem forall₂_mem_right {α β : Type _} {R : α → β → Prop}
    {l : List α} {l2 : List β} (h : List.Forall₂ R l l2) :
    ∀ b ∈ l2, ∃ a ∈ l, R a b := by
  induction h with
  | nil => simp
  | cons hr _ ih =>
    intro b hb
    rcases List.mem_cons.mp hb with rfl | hb
    · exact ⟨_, List.mem_cons_self .., hr⟩
    · obtain ⟨a, ha, hab⟩ := ih b hb
      exact ⟨a, List.mem_cons_of_mem _ ha, hab⟩

theorem forall₂_map_eq {α β γ : Type _} {R : α → β → Prop} {f : α → γ}
    {g : β → γ} (hf : ∀ a b, R a b → f a = g b) :
    ∀ {l : List α} {l2 : List β}, List.Forall₂ R l l2 →
      l.map f = l2.map g := by
  intro l l2 h
  induction h with
  | nil => rfl
  | cons hr _ ih => simp [hf _ _ hr, ih]

theorem advanceRel_id {j j2 : Job} (h : advanceRel j j2) : j.id = j2.id :=
  h.1.1

/-! ### Injectivity of the decimal id encoding -/

theorem toDigitsCore_append :
    ∀ (fuel n : Nat) (ds : List Char),
      Nat.toDigitsCore 10 fuel n ds = Nat.toDigitsCore 10 fuel n [] ++ ds := by
  intro fuel
  induction fuel with
  | zero => intro n ds; simp [Nat.toDigitsCore]
  | succ f ih =>
    intro n ds
    simp only [Nat.toDigitsCore]
    by_cases h : n / 10 = 0
    · simp [h]
    · simp only [h, if_false]
      rw [ih (n / 10) (Nat.digitChar (n % 10) :: ds),
        ih (n / 10) [Nat.digitChar (n % 10)]]
      simp

/-- One step of decimal parsing, most significant digit first. -/
def parseStep (a : Nat) (c : Char) : Nat := 10 * a + (c.toNat - 48)

/-- Decimal parsing of a digit-character list. -/
def parseDec (l : List Char) : Nat := l.foldl parseStep 0

theorem digitChar_val : ∀ d, d < 10 → (Nat.digitChar d).toNat - 48 = d := by
  decide

theorem parseDec_toDigitsCore :
    ∀ (fuel n : Nat), n < 10 ^ fuel →
      parseDec (Nat.toDigitsCore 10 fuel n []) = n := by
  intro fuel
  induction fuel with
  | zero =>
    intro n h
    have hn : n = 0 := by simpa using Nat.lt_one_iff.mp (by simpa using h)
    subst hn
    simp [Nat.toDigitsCore, parseDec]
  | succ f ih =>
    intro n h
    simp only [Nat.toDigitsCore]
    by_cases h0 : n / 10 = 0
    · have hn : n < 10 := by omega
      simp [h0, parseDec, parseStep, List.foldl,
        digitChar_val (n % 10) (by omega)]
      omega
    · rw [if_neg h0, toDigitsCore_append]
      have hlt : n / 10 < 10 ^ f := by
        apply Nat.div_lt_of_lt_mul
        have : 10 ^ (f + 1) = 10 * 10 ^ f := by ring
        omega
      have hrec := ih (n / 10) hlt
      simp only [parseDec, List.foldl_append, List.foldl] at hrec ⊢
      rw [hrec, parseStep, digitChar_val (n % 10) (by omega)]
      omega

theorem natRepr_injective : Function.Injective Nat.repr := by
  intro n m h
  have hlt : ∀ a : Nat, a < 10 ^ (a + 1) := by
    intro a
    calc a < 10 ^ a := Nat.lt_pow_self (by norm_num) a
    _ ≤ 10 ^ (a + 1) := Nat.pow_le_pow_right (by norm_num) (Nat.le_succ a)
  have hd : Nat.toDigits 10 n = Nat.toDigits 10 m := by
    have h2 := congrArg String.data h
    simpa [Nat.repr, List.asString] using h2
  have h1 : parseDec (Nat.toDigits 10 n) = n :=
    parseDec_toDigitsCore (n + 1) n (hlt n)
  have h2 : parseDec (Nat.toDigits 10 m) = m :=
    parseDec_toDigitsCore (m + 1) m (hlt m)
  rw [← h1, ← h2, hd]

theorem encodeId_injective : Function.Injective encodeId := by
  intro n m h
  apply natRepr_injective
  have h2 := congrArg String.data h
  simp only [encodeId, String.data_append] at h2
  have h3 := List.append_cancel_left h2
  show Nat.repr n = Nat.repr m
  cases hn : Nat.repr n with
  | mk dn =>
    cases hm : Nat.repr m with
    | mk dm =>
      have : dn = dm := by
        have h4 : (Nat.repr n).data = (Nat.repr m).data := h3
        rw [hn, hm] at h4
        exact h4
      simp [this]

/-! ### The id invariant -/

/-- The ids of the stored jobs are the decimal encodings of a strictly
increasing list of counter values, all below the current counter. -/
def IdInv (e : Engine) : Prop :=
  ∃ ns : List Nat, ns.Pairwise (· < ·) ∧ (∀ n ∈ ns, n < e.job_counter) ∧
    e.jobs.map Job.id = ns.map encodeId

theorem IdInv_init (m : Nat) : IdInv (Engine.init m) :=
  ⟨[], List.Pairwise.nil, by simp, rfl⟩

theorem create_job_snd_jobs (e : Engine) (d : JobDraw) (m : Bool) :
    (create_job e d m).2.jobs =
      if (e.jobs ++ [(create_job e d m).1]).length > e.max_jobs then
        (e.jobs ++ [(create_job e d m).1]).drop 1
      else e.jobs ++ [(create_job e d m).1] := rfl

theorem create_job_snd_counter (e : Engine) (d : JobDraw) (m : Bool) :
    (create_job e d m).2.job_counter = e.job_counter + 1 := rfl

theorem create_job_fst_id (e : Engine) (d : JobDraw) (m : Bool) :
    (create_job e d m).1.id = encodeId e.job_counter := rfl

theorem IdInv_applyOp (op : EngineOp) (e : Engine) (h : IdInv e) :
    IdInv (applyOp op e) := by
  obtain ⟨ns, hpw, hbd, hmap⟩ := h
  cases op with
  | create d m =>
    have hpw2 : (ns ++ [e.job_counter]).Pairwise (· < ·) := by
      refine List.pairwise_append.mpr ⟨hpw, List.pairwise_singleton .., ?_⟩
      intro a ha b hb
      rw [List.mem_singleton] at hb
      exact hb ▸ hbd a ha
    have hbd2 : ∀ n ∈ ns ++ [e.job_counter], n < e.job_counter + 1 := by
      intro n hn
      rcases List.mem_append.mp hn with hn | hn
      · exact Nat.lt_succ_of_lt (hbd n hn)
      · rw [List.mem_singleton] at hn
        omega
    have hmap2 : (e.jobs ++ [(create_job e d m).1]).map Job.id =
        (ns ++ [e.job_counter]).map encodeId := by
      rw [List.map_append, List.map_append, hmap]
      simp [create_job_fst_id]
    have hcnt : (applyOp (.create d m) e).job_counter = e.job_counter + 1 :=
      create_job_snd_counter e d m
    have hjobs : (applyOp (.create d m) e).jobs = (create_job e d m).2.jobs :=
      rfl
    rw [IdInv, hcnt, hjobs, create_job_snd_jobs]
    by_cases hc : (e.jobs ++ [(create_job e d m).1]).length > e.max_jobs
    · refine ⟨(ns ++ [e.job_counter]).drop 1,
        hpw2.sublist (List.drop_sublist 1 _),
        fun n hn => hbd2 n (List.drop_subset 1 _ hn), ?_⟩
      rw [if_pos hc, List.map_drop, List.map_drop, hmap2]
    · refine ⟨ns ++ [e.job_counter], hpw2, hbd2, ?_⟩
      rw [if_neg hc]
      exact hmap2
  | advance r =>
    refine ⟨ns, hpw, hbd, ?_⟩
    have hm := forall₂_map_eq (f := Job.id) (g := Job.id)
      (fun a b hab => advanceRel_id hab) (update_jobs_rel r 0 e.jobs)
    rw [applyOp] at *
    rw [← hm]
    exact hmap
  | list limit => exact ⟨ns, hpw, hbd, hmap⟩
  | get s => exact ⟨ns, hpw, hbd, hmap⟩
  | clear =>
    have hsub : List.Sublist ((applyOp .clear e).jobs.map Job.id)
        (ns.map encodeId) := by
      rw [← hmap]
      exact (List.filter_sublist e.jobs).map Job.id
    obtain ⟨ms, hms, heq⟩ := List.sublist_map_iff.mp hsub
    exact ⟨ms, hpw.sublist hms, fun n hn => hbd n (hms.subset hn), heq⟩

theorem IdInv_nodup {e : Engine} (h : IdInv e) :
    (e.jobs.map Job.id).Nodup := by
  obtain ⟨ns, hpw, _, hmap⟩ := h
  rw [hmap]
  exact List.Nodup.map encodeId_injective (hpw.imp Nat.ne_of_lt)

theorem applyOp_counter_mono (op : EngineOp) (e : Engine) :
    e.job_counter ≤ (applyOp op e).job_counter := by
  cases op <;> simp [applyOp, create_job, clear_completed]

/-! ### Capacity lemmas -/

theorem update_jobs_length (r : Nat → ℚ) (k : Nat) (jobs : List Job) :
    (update_jobs r k jobs).1.length = jobs.length :=
  ((update_jobs_rel r k jobs).length_eq).symm

theorem applyOp_capacity (op : EngineOp) (e : Engine)
    (h : e.jobs.length ≤ e.max_jobs) :
    (applyOp op e).jobs.length ≤ e.max_jobs := by
  cases op with
  | create d m =>
    simp only [applyOp, create_job]
    split
    · simp only [List.length_drop, List.length_append, List.length_cons,
        List.length_nil]
      omega
    · rename_i hc
      simp only [gt_iff_lt, not_lt, List.length_append, List.length_cons,
        List.length_nil] at hc ⊢
      omega
  | advance r => simpa [applyOp, update_jobs_length] using h
  | list limit => exact h
  | get s => exact h
  | clear =>
    simp only [applyOp, clear_completed]
    exact le_trans (List.length_filter_le _ _) h

/-! ### Sorting and slicing lemmas for `get_jobs` -/

theorem sortedJobs_pairwise (e : Engine) :
    (sortedJobs e).Pairwise (fun a b => jobLE a b = true) :=
  List.sorted_mergeSort jobLE_trans jobLE_total e.jobs

theorem sortedJobs_perm (e : Engine) : (sortedJobs e).Perm e.jobs :=
  List.mergeSort_perm e.jobs jobLE

theorem get_jobs_suffix (e : Engine) (limit : Int) :
    List.IsSuffix (get_jobs e limit) (sortedJobs e) := by
  rw [get_jobs, pySliceFrom]
  split
  · exact List.drop_suffix _ _
  · exact List.drop_suffix _ _

theorem sortedJobs_length (e : Engine) :
    (sortedJobs e).length = e.jobs.length :=
  (sortedJobs_perm e).length_eq

theorem get_jobs_length_pos (e : Engine) (limit : Int) (h : 0 < limit) :
    (get_jobs e limit).length = min limit.toNat e.jobs.length := by
  rw [get_jobs, pySliceFrom, if_pos (by omega : -limit < 0), neg_neg,
    List.length_drop, sortedJobs_length]
  omega

theorem get_jobs_pairwise (e : Engine) (limit : Int) :
    (get_jobs e limit).Pairwise (fun a b => jobLE a b = true) :=
  (sortedJobs_pairwise e).sublist (get_jobs_suffix e limit).sublist

theorem get_jobs_zero (e : Engine) : get_jobs e 0 = sortedJobs e := by
  rw [get_jobs, pySliceFrom]
  norm_num

theorem get_jobs_neg (e : Engine) (limit : Int) (h : limit < 0) :
    get_jobs e limit = (sortedJobs e).drop limit.natAbs := by
  rw [get_jobs, pySliceFrom, if_neg (by omega : ¬ -limit < 0),
    show (-limit).toNat = limit.natAbs by omega]

/-! ### Concrete fixtures -/

/-- A draw with fixed sampled values, used for concrete scenarios. -/
def mkDraw (t : String) : JobDraw :=
  { type := "Quantum Fourier Transform", created_at := t,
    estimated_runtime := 60, success_probability := 90 }

/-- A concrete QUEUED job as `create_job` would build it first. -/
def jobQ : Job :=
  { id := "BQJ-1", type := "Quantum Fourier Transform", status := .QUEUED,
    created_at := "2026-01-01T00:00:01+00:00", estimated_runtime := 60,
    success_probability := 90, manual := false }

/-- A one-job engine state. -/
def engQ : Engine :=
  { jobs := [jobQ], job_counter := 2, running := true, max_jobs := 200 }

/-- A concrete COMPLETED job. -/
def jobC : Job :=
  { id := "BQJ-2", type := "Quantum Fourier Transform", status := .COMPLETED,
    created_at := "2026-01-01T00:00:02+00:00", estimated_runtime := 60,
    success_probability := 90, manual := false }

/-- A two-job engine state with one COMPLETED and one QUEUED job. -/
def engCQ : Engine :=
  { jobs := [jobC, jobQ], job_counter := 3, running := true, max_jobs := 200 }

/-- Scenario of the spec: an engine with capacity 3, then four creations. -/
def scE0 : Engine := Engine.init 3

def scC1 : Job × Engine := create_job scE0 (mkDraw "2026-01-01T00:00:01+00:00") false

def scC2 : Job × Engine := create_job scC1.2 (mkDraw "2026-01-01T00:00:02+00:00") false

def scC3 : Job × Engine := create_job scC2.2 (mkDraw "2026-01-01T00:00:03+00:00") false

def scC4 : Job × Engine := create_job scC3.2 (mkDraw "2026-01-01T00:00:04+00:00") false

/-! ### Claims -/

/-- C1: `update_jobs` never changes a job whose status is COMPLETED or
FAILED, and relates every input job to its updated version by the
one-directional chain QUEUED to RUNNING to COMPLETED or FAILED (never
regressing, reaching a terminal state only from RUNNING); moreover after
any engine operation every stored job either is a freshly created QUEUED
job or descends from a previously stored job by one such step, so along any
sequence of operations no job skips RUNNING on the way to a terminal
state. -/
theorem claim_C1_status_transitions :
    (∀ (r : Nat → ℚ) (k : Nat) (jobs : List Job),
        List.Forall₂ advanceRel jobs (update_jobs r k jobs).1) ∧
    (∀ (op : EngineOp) (e : Engine), ∀ j2 ∈ (applyOp op e).jobs,
        j2.status = .QUEUED ∨ ∃ j ∈ e.jobs, advanceRel j j2) := by
  refine ⟨fun r => update_jobs_rel r, ?_⟩
  intro op e j2 hj2
  cases op with
  | create d m =>
    rw [show (applyOp (.create d m) e).jobs = (create_job e d m).2.jobs
      from rfl, create_job_snd_jobs] at hj2
    have hj3 : j2 ∈ e.jobs ++ [(create_job e d m).1] := by
      split at hj2
      · exact List.drop_subset 1 _ hj2
      · exact hj2
    rcases List.mem_append.mp hj3 with h | h
    · exact Or.inr ⟨j2, h, sameCore_refl j2, statusStep_refl _, fun _ => rfl⟩
    · rw [List.mem_singleton] at h
      subst h
      exact Or.inl rfl
  | advance r =>
    obtain ⟨j, hj, hrel⟩ := forall₂_mem_right (update_jobs_rel r 0 e.jobs) j2 hj2
    exact Or.inr ⟨j, hj, hrel⟩
  | list limit =>
    exact Or.inr ⟨j2, hj2, sameCore_refl j2, statusStep_refl _, fun _ => rfl⟩
  | get s =>
    exact Or.inr ⟨j2, hj2, sameCore_refl j2, statusStep_refl _, fun _ => rfl⟩
  | clear =>
    have hmem : j2 ∈ e.jobs :=
      (List.filter_sublist e.jobs).subset hj2
    exact Or.inr ⟨j2, hmem, sameCore_refl j2, statusStep_refl _, fun _ => rfl⟩

/-- C1 witness: a PRNG stream that always draws 0 starts the concrete
QUEUED job, and the started job satisfies the transition property. -/
theorem claim_C1_witness :
    ({ jobQ with status := .RUNNING } ∈
        (applyOp (.advance fun _ => 0) engQ).jobs) ∧
      (({ jobQ with status := .RUNNING } : Job).status = .QUEUED ∨
        ∃ j ∈ engQ.jobs, advanceRel j { jobQ with status := .RUNNING }) := by
  have h04 : (0 : ℚ) < 4 / 10 := by norm_num
  have hmem : { jobQ with status := .RUNNING } ∈
      (applyOp (.advance fun _ => 0) engQ).jobs := by
    show { jobQ with status := .RUNNING } ∈
      (update_jobs (fun _ => 0) 0 [jobQ]).1
    rw [update_jobs, update_jobs]
    simp only [step_job, jobQ, if_pos h04]
    exact List.mem_cons_self ..
  exact ⟨hmem, claim_C1_status_transitions.2 (.advance fun _ => 0) engQ
    { jobQ with status := .RUNNING } hmem⟩

/-- C2: every engine operation keeps the collection within `max_jobs`; when
the bound is reached, `create_job` appends the new job and removes exactly
the entry at index 0, and with `max_jobs` 3 creating four jobs leaves the
second to fourth created jobs, in creation order, with the first evicted. -/
theorem claim_C2_capacity :
    (∀ (op : EngineOp) (e : Engine), e.jobs.length ≤ e.max_jobs →
        (applyOp op e).jobs.length ≤ e.max_jobs) ∧
    (∀ (e : Engine) (d : JobDraw) (m : Bool), e.jobs.length ≤ e.max_jobs →
        (create_job e d m).2.jobs =
          if e.jobs.length = e.max_jobs then
            (e.jobs ++ [(create_job e d m).1]).drop 1
          else e.jobs ++ [(create_job e d m).1]) ∧
    (scC4.2.jobs = [scC2.1, scC3.1, scC4.1] ∧ scC4.2.jobs.length = 3 ∧
      scC1.1 ∉ scC4.2.jobs) := by
  refine ⟨applyOp_capacity, ?_, ?_, rfl, ?_⟩
  · intro e d m h
    rw [create_job_snd_jobs]
    by_cases he : e.jobs.length = e.max_jobs
    · rw [if_pos (by simp only [List.length_append, List.length_cons,
        List.length_nil]; omega), if_pos he]
    · rw [if_neg (by simp only [List.length_append, List.length_cons,
        List.length_nil, gt_iff_lt, not_lt]; omega), if_neg he]
  · rfl
  · intro hmem
    have h2 : scC1.1.id ∈ scC4.2.jobs.map Job.id :=
      List.mem_map_of_mem _ hmem
    rw [show scC4.2.jobs.map Job.id = ["BQJ-2", "BQJ-3", "BQJ-4"] from rfl,
      show scC1.1.id = "BQJ-1" from rfl] at h2
    exact absurd h2 (by decide)

/-- C2 witness: the capacity bound applied to the concrete one-job engine
and the clear operation. -/
theorem claim_C2_witness :
    engQ.jobs.length ≤ engQ.max_jobs ∧
      (applyOp .clear engQ).jobs.length ≤ engQ.max_jobs :=
  ⟨by norm_num [engQ], claim_C2_capacity.1 .clear engQ (by norm_num [engQ])⟩

/-- C3: `get_jobs` returns a suffix (the tail end) of the collection sorted
ascending by the status-priority key with `created_at` tie-break, that
sorted sequence is a permutation of the stored collection, for a positive
limit the result has `min limit size` entries, and the stored collection is
not modified. -/
theorem claim_C3_list_jobs :
    ∀ (e : Engine) (limit : Int),
      (get_jobs e limit).Pairwise (fun a b => jobLE a b = true) ∧
      List.IsSuffix (get_jobs e limit) (sortedJobs e) ∧
      (sortedJobs e).Perm e.jobs ∧
      (0 < limit →
        (get_jobs e limit).length = min limit.toNat e.jobs.length) ∧
      applyOp (.list limit) e = e := by
  intro e limit
  exact ⟨get_jobs_pairwise e limit, get_jobs_suffix e limit,
    sortedJobs_perm e, fun h => get_jobs_length_pos e limit h, rfl⟩

/-- C3 witness: the length clause applied at the one-job engine with
limit 1. -/
theorem claim_C3_witness :
    (0 : Int) < 1 ∧
      (get_jobs engQ 1).length = min (1 : Int).toNat engQ.jobs.length :=
  ⟨by norm_num, (claim_C3_list_jobs engQ 1).2.2.2.1 (by norm_num)⟩

/-- C4 counterexample: the claim fails at limit 0, which is smaller than
the size of the one-job collection, yet `get_jobs` returns the whole sorted
collection (one entry) rather than zero entries. -/
theorem claim_C4_counterexample :
    (0 : Int) < engQ.jobs.length ∧
      (get_jobs engQ 0).length ≠ (0 : Int).toNat := by
  constructor
  · norm_num [engQ]
  · rw [get_jobs_zero]
    norm_num [sortedJobs, engQ]

/-- C4 amended: for every positive limit smaller than the collection size,
`get_jobs` returns exactly `limit` entries, and they are the tail slice of
the status-then-created-at ascending sort of the collection. -/
theorem claim_C4_amended :
    ∀ (e : Engine) (limit : Int), 0 < limit → limit < e.jobs.length →
      (get_jobs e limit).length = limit.toNat ∧
        get_jobs e limit =
          (sortedJobs e).drop ((sortedJobs e).length - limit.toNat) := by
  intro e limit h1 h2
  constructor
  · rw [get_jobs_length_pos e limit h1]
    omega
  · rw [get_jobs, pySliceFrom, if_pos (by omega : -limit < 0), neg_neg]

/-- C4 witness: the amended claim applied at a concrete two-job engine
with limit 1. -/
theorem claim_C4_witness :
    ((0 : Int) < 1 ∧ (1 : Int) < engCQ.jobs.length) ∧
      ((get_jobs engCQ 1).length = (1 : Int).toNat ∧
        get_jobs engCQ 1 =
          (sortedJobs engCQ).drop ((sortedJobs engCQ).length - (1 : Int).toNat)) :=
  ⟨⟨by norm_num, by norm_num [engCQ]⟩,
    claim_C4_amended engCQ 1 (by norm_num) (by norm_num [engCQ])⟩

/-- C5: on any initial engine the id invariant holds, every engine
operation preserves it and never decreases the counter, each `create_job`
assigns the id BQJ-counter and bumps the counter by one (so ids assigned
across any operation sequence are strictly increasing and never reused),
the decimal encoding is injective, and under the invariant the stored ids
are distinct and listed in creation order. -/
theorem claim_C5_ids :
    (∀ m, IdInv (Engine.init m)) ∧
    (∀ (op : EngineOp) (e : Engine), IdInv e → IdInv (applyOp op e)) ∧
    (∀ (op : EngineOp) (e : Engine),
        e.job_counter ≤ (applyOp op e).job_counter) ∧
    (∀ (e : Engine) (d : JobDraw) (m : Bool),
        (create_job e d m).1.id = encodeId e.job_counter ∧
          (create_job e d m).2.job_counter = e.job_counter + 1) ∧
    Function.Injective encodeId ∧
    (∀ e : Engine, IdInv e → (e.jobs.map Job.id).Nodup) :=
  ⟨IdInv_init, IdInv_applyOp, applyOp_counter_mono,
    fun e d m => ⟨create_job_fst_id e d m, create_job_snd_counter e d m⟩,
    encodeId_injective, fun _ h => IdInv_nodup h⟩

/-- C5 witness: the id invariant holds at the concrete one-job engine and
yields distinct stored ids there. -/
theorem claim_C5_witness :
    IdInv engQ ∧ (engQ.jobs.map Job.id).Nodup := by
  have hinv : IdInv engQ := by
    refine ⟨[1], List.pairwise_singleton .., ?_, rfl⟩
    intro n hn
    rw [List.mem_singleton] at hn
    subst hn
    norm_num [engQ]
  exact ⟨hinv, claim_C5_ids.2.2.2.2.2 engQ hinv⟩

/-- C6: `clear_completed` returns the number of COMPLETED jobs stored
before the call, keeps a sublist of the collection (so remaining jobs keep
their relative order), every kept job is non-COMPLETED, every non-COMPLETED
job is kept, and kept plus removed counts add up to the previous size. -/
theorem claim_C6_clear_completed :
    ∀ e : Engine,
      (clear_completed e).1 =
        e.jobs.countP (fun j => j.status == .COMPLETED) ∧
      List.Sublist (clear_completed e).2.jobs e.jobs ∧
      (∀ j ∈ (clear_completed e).2.jobs, j.status ≠ .COMPLETED) ∧
      (∀ j ∈ e.jobs, j.status ≠ .COMPLETED →
        j ∈ (clear_completed e).2.jobs) ∧
      (clear_completed e).2.jobs.length + (clear_completed e).1 =
        e.jobs.length := by
  intro e
  refine ⟨(List.countP_eq_length_filter _ _).symm, List.filter_sublist _,
    ?_, ?_, ?_⟩
  · intro j hj
    have h2 := (List.mem_filter.mp hj).2
    simpa using h2
  · intro j hj hne
    exact List.mem_filter.mpr ⟨hj, by simpa using hne⟩
  · show (e.jobs.filter fun j => !(j.status == .COMPLETED)).length +
      (e.jobs.filter fun j => j.status == .COMPLETED).length = e.jobs.length
    rw [← List.countP_eq_length_filter, ← List.countP_eq_length_filter]
    have h := List.length_eq_countP_add_countP
      (p := fun j : Job => j.status == .COMPLETED) (l := e.jobs)
    have h2 : (fun a : Job => decide ¬((a.status == .COMPLETED) = true)) =
        (fun j : Job => !(j.status == .COMPLETED)) :=
      funext fun a => by cases ha : (a.status == .COMPLETED) <;> simp [ha]
    rw [h2] at h
    omega

/-- C6 witness: clearing the concrete engine that holds one COMPLETED and
one QUEUED job. -/
theorem claim_C6_witness :
    jobQ ∈ engCQ.jobs ∧ jobQ.status ≠ .COMPLETED ∧
      jobQ ∈ (clear_completed engCQ).2.jobs := by
  have h1 : jobQ ∈ engCQ.jobs := by
    rw [show engCQ.jobs = [jobC, jobQ] from rfl]
    exact List.mem_cons_of_mem _ (List.mem_cons_self ..)
  have h2 : jobQ.status ≠ .COMPLETED := by
    rw [show jobQ.status = .QUEUED from rfl]
    simp
  exact ⟨h1, h2, (claim_C6_clear_completed engCQ).2.2.2.1 jobQ h1 h2⟩

/-- C7: `get_job` returns the not-found signal exactly when no stored job
has the requested id, and any returned job is the first stored job whose id
matches. -/
theorem claim_C7_get_job :
    ∀ (e : Engine) (job_id : String),
      (get_job e job_id = none ↔ ∀ j ∈ e.jobs, j.id ≠ job_id) ∧
      (∀ j, get_job e job_id = some j →
          j.id = job_id ∧
            ∃ l1 l2, e.jobs = l1 ++ j :: l2 ∧ ∀ k ∈ l1, k.id ≠ job_id) := by
  intro e job_id
  constructor
  · rw [get_job, List.find?_eq_none]
    constructor
    · intro h j hj
      simpa using h j hj
    · intro h j hj
      simpa using h j hj
  · intro j hj
    rw [get_job, List.find?_eq_some] at hj
    obtain ⟨hp, l1, l2, heq, hfirst⟩ := hj
    refine ⟨by simpa using hp, l1, l2, heq, ?_⟩
    intro k hk
    simpa using hfirst k hk

/-- C7 witness: looking up BQJ-1 in the concrete one-job engine finds the
stored job, which is a first match. -/
theorem claim_C7_witness :
    get_job engQ "BQJ-1" = some jobQ ∧
      (jobQ.id = "BQJ-1" ∧
        ∃ l1 l2, engQ.jobs = l1 ++ jobQ :: l2 ∧ ∀ k ∈ l1, k.id ≠ "BQJ-1") :=
  ⟨rfl, (claim_C7_get_job engQ "BQJ-1").2 jobQ rfl⟩

/-- C8: the list and lookup operations leave the engine state unchanged;
`update_jobs` keeps the length and every field except `status` of every
job; every job stored after `create_job` is a previously stored job
(unchanged) or the new job, and the stored list is a suffix of the old list
with the new job appended (so removal happens only through the index-0
eviction); `clear_completed` keeps a sublist of the old collection. -/
theorem claim_C8_frame :
    (∀ (limit : Int) (e : Engine), applyOp (.list limit) e = e) ∧
    (∀ (s : String) (e : Engine), applyOp (.get s) e = e) ∧
    (∀ (r : Nat → ℚ) (k : Nat) (jobs : List Job),
        (update_jobs r k jobs).1.length = jobs.length ∧
          List.Forall₂ sameCore jobs (update_jobs r k jobs).1) ∧
    (∀ (e : Engine) (d : JobDraw) (m : Bool), ∀ j2 ∈ (create_job e d m).2.jobs,
        j2 ∈ e.jobs ∨ j2 = (create_job e d m).1) ∧
    (∀ (e : Engine) (d : JobDraw) (m : Bool),
        List.IsSuffix (create_job e d m).2.jobs
          (e.jobs ++ [(create_job e d m).1])) ∧
    (∀ e : Engine, List.Sublist (clear_completed e).2.jobs e.jobs) := by
  refine ⟨fun _ _ => rfl, fun _ _ => rfl, ?_, ?_, ?_, fun e => List.filter_sublist _⟩
  · intro r k jobs
    exact ⟨update_jobs_length r k jobs,
      (update_jobs_rel r k jobs).imp (fun a b h => h.1)⟩
  · intro e d m j2 hj2
    rw [create_job_snd_jobs] at hj2
    have hj3 : j2 ∈ e.jobs ++ [(create_job e d m).1] := by
      split at hj2
      · exact List.drop_subset 1 _ hj2
      · exact hj2
    rcases List.mem_append.mp hj3 with h | h
    · exact Or.inl h
    · exact Or.inr (List.mem_singleton.mp h)
  · intro e d m
    rw [create_job_snd_jobs]
    split
    · exact List.drop_suffix _ _
    · exact List.suffix_refl _

/-- C8 witness: the job created on the empty three-slot engine is stored,
and it is either previously stored or the new job. -/
theorem claim_C8_witness :
    scC1.1 ∈ scC1.2.jobs ∧ (scC1.1 ∈ scE0.jobs ∨ scC1.1 = scC1.1) := by
  have hmem : scC1.1 ∈ scC1.2.jobs := by
    rw [show scC1.2.jobs = [scC1.1] from rfl]
    exact List.mem_cons_self ..
  exact ⟨hmem,
    claim_C8_frame.2.2.2.1 scE0 (mkDraw "2026-01-01T00:00:01+00:00") false
      scC1.1 hmem⟩

/-- C9: `now_iso` formats with the configured display timezone exactly when
its name is valid and silently falls back to UTC otherwise; a missing or
empty configuration resolves to UTC; and `create_job` stamps whatever
`now_iso` returns, for every timezone configuration. -/
theorem claim_C9_timezone :
    ∀ (valid : String → Bool) (clock : String → String)
      (config env : Option String),
      (valid (get_display_tz config env) = true →
          now_iso valid clock config env =
            clock (get_display_tz config env)) ∧
      (valid (get_display_tz config env) = false →
          now_iso valid clock config env = clock "UTC") ∧
      get_display_tz none none = "UTC" ∧
      get_display_tz (some "") env = get_display_tz none env ∧
      (∀ (e : Engine) (d : JobDraw) (m : Bool),
          (create_job e
              { d with created_at := now_iso valid clock config env }
              m).1.created_at =
            now_iso valid clock config env) := by
  intro valid clock config env
  refine ⟨?_, ?_, rfl, rfl, fun e d m => rfl⟩
  · intro h
    rw [now_iso, if_pos h]
  · intro h
    rw [now_iso, if_neg (by rw [h]; exact Bool.false_ne_true)]

/-- C9 witness: with an oracle that rejects every zone name and a
configured bogus zone, the timestamp falls back to UTC. -/
theorem claim_C9_witness :
    (fun _ : String => false) (get_display_tz (some "Not/AZone") none) = false ∧
      now_iso (fun _ => false) (fun s => s) (some "Not/AZone") none =
        (fun s : String => s) "UTC" :=
  ⟨rfl, (claim_C9_timezone (fun _ => false) (fun s => s)
    (some "Not/AZone") none).2.1 rfl⟩

/-- C10: because the result is the Python tail slice, `get_jobs` with limit
0 returns the entire sorted collection, with a negative limit it returns
the sorted collection minus its first `abs limit` entries, and the API
route passes any integer limit parameter through unchanged (default 50). -/
theorem claim_C10_slice_quirk :
    ∀ e : Engine,
      get_jobs e 0 = sortedJobs e ∧
      (∀ limit : Int, limit < 0 →
          get_jobs e limit = (sortedJobs e).drop limit.natAbs) ∧
      (∀ limitInt : Int,
          (get_jobs_api e (some limitInt)).jobs = get_jobs e limitInt) ∧
      (get_jobs_api e none).jobs = get_jobs e 50 := by
  intro e
  exact ⟨get_jobs_zero e, fun limit h => get_jobs_neg e limit h,
    fun _ => rfl, rfl⟩

/-- C10 witness: the negative-limit clause applied at the one-job engine
with limit -1. -/
theorem claim_C10_witness :
    (-1 : Int) < 0 ∧
      get_jobs engQ (-1) = (sortedJobs engQ).drop (-1 : Int).natAbs :=
  ⟨by norm_num, (claim_C10_slice_quirk engQ).2.1 (-1) (by norm_num)⟩
